import Mathlib

/-!
Verification of the batch-formation and conflict-detection engine of
`streamlit_app.py`.

The file shallowly embeds the program: pandas DataFrames become lists of
records, NaN-able cells become `Option String`, a raised exception becomes an
explicit error value, Streamlit `st.error` + `return None` becomes `none` /
`Except.error`, and the in-place column assignment performed by
`detect_conflicts` is made explicit by returning the updated table alongside
the conflict list.

String primitives of Python (`strip`, `lower`, `upper`, `replace(" ", "")`,
`split(";")`, `", ".join`, `str(int)`) are embedded as structural functions on
`List Char` so that all definitions evaluate inside the kernel.  Within-cell
ordering of reported students follows pandas `value_counts` in the source
(frequency order); the embedding uses first-occurrence order instead, and no
theorem below depends on the relative order of distinct students' rows.
-/

/-! ### String primitives -/

def semiChar : Char := ';'

def spaceChar : Char := ' '

def commaSep : String := ", "

/-- Python `str.strip` strips these whitespace characters. -/
def isWS (c : Char) : Bool := c.isWhitespace

/-- Embedding of Python `str.strip()`. -/
def trimStr (s : String) : String :=
  String.mk (((s.data.dropWhile isWS).reverse.dropWhile isWS).reverse)

/-- Embedding of Python `str.upper()` (ASCII case mapping). -/
def upperAscii (s : String) : String := String.mk (s.data.map Char.toUpper)

/-- Embedding of Python `str.lower()` (ASCII case mapping). -/
def lowerAscii (s : String) : String := String.mk (s.data.map Char.toLower)

/-- Embedding of Python `str.replace(" ", "")`: drop every space. -/
def removeSpaces (s : String) : String :=
  String.mk (s.data.filter (fun c => !(c == spaceChar)))

/-- Embedding of Python `str.isEmpty` test (truthiness of a string). -/
def strIsEmpty (s : String) : Bool := s.data.isEmpty

/-- Embedding of Python `s.split(sep)` for a one-character separator:
empty pieces are kept, and the empty string splits to one empty piece. -/
def splitOnCharList (sep : Char) : List Char → List (List Char)
  | [] => [[]]
  | c :: rest =>
    match splitOnCharList sep rest with
    | [] => [[]]
    | g :: gs => if c == sep then [] :: g :: gs else (c :: g) :: gs

def splitOnStr (sep : Char) (s : String) : List String :=
  (splitOnCharList sep s.data).map String.mk

/-- Embedding of Python `sep.join(list)`. -/
def joinSep (sep : String) : List String → String
  | [] => String.mk []
  | [x] => x
  | x :: y :: rest => x ++ sep ++ joinSep sep (y :: rest)

/-- Decimal digit character, `digitChar d` is the character for digit `d`. -/
def digitChar (d : Nat) : Char := Char.ofNat (48 + d)

/-- Big-endian decimal digits of `n`, with enough fuel (`n ≤ fuel`). -/
def toDecAux : Nat → Nat → List Char
  | _, 0 => []
  | 0, _ + 1 => []
  | fuel + 1, n + 1 => toDecAux fuel ((n + 1) / 10) ++ [digitChar ((n + 1) % 10)]

/-- Embedding of Python `str(n)` for a natural number: decimal, no leading
zeros, `"0"` for zero. -/
def decRepr (n : Nat) : String :=
  if n == 0 then String.mk [digitChar 0] else String.mk (toDecAux n n)

/-- Substring test on character lists: `subOf pat hay` holds when `pat`
occurs contiguously inside `hay` (embedding of Python `pat in hay`). -/
def subOf : List Char → List Char → Bool
  | pat, [] => pat.isEmpty
  | pat, c :: rest => pat.isPrefixOf (c :: rest) || subOf pat rest

/-! ### Data model -/

/-- One row of a roster after normalization: division, roll number,
student name (the three columns selected in `form_batches_by_subject`). -/
structure RosterRow where
  division : String
  rollNo : String
  studentName : String
deriving DecidableEq

/-- One row of a per-subject batch table (`form_batches_by_subject` output). -/
structure BatchedRow where
  division : String
  rollNo : String
  studentName : String
  batch : String
deriving DecidableEq

/-- One row of the combined batch table consumed by `detect_conflicts`
(columns Division, Batch Number, Registration Number, Student Name). -/
structure BatchRow where
  division : String
  registrationNumber : String
  studentName : String
  batchNumber : String
deriving DecidableEq

/-- One row of the conflict report built by `detect_conflicts`. -/
structure Conflict where
  studentName : String
  registrationNumber : String
  division : String
  day : String
  timeSlot : String
  conflictingBatches : String
deriving DecidableEq

/-- One row of the grid-mode timetable: a "Class time" cell and one cell per
weekday column; `none` models NaN (dropped by `dropna`). -/
structure TTRow where
  classTime : Option String
  monday : Option String
  tuesday : Option String
  wednesday : Option String
  thursday : Option String
  friday : Option String
deriving DecidableEq

/-- The uploaded timetable: which weekday columns exist, and the rows. -/
structure Timetable where
  presentDays : List String
  rows : List TTRow
deriving DecidableEq

/-- A raw tabular file after reading: header names and cell rows. -/
structure RawTable where
  cols : List String
  cells : List (List String)
deriving DecidableEq

def dayMonday : String := "Monday"

def dayTuesday : String := "Tuesday"

def dayWednesday : String := "Wednesday"

def dayThursday : String := "Thursday"

def dayFriday : String := "Friday"

/-- The `days` list of `detect_conflicts`. -/
def days : List String := [dayMonday, dayTuesday, dayWednesday, dayThursday, dayFriday]

/-- Cell of a timetable row under a weekday column (`row[day]`). -/
def getCell (row : TTRow) (day : String) : Option String :=
  if day == dayMonday then row.monday
  else if day == dayTuesday then row.tuesday
  else if day == dayWednesday then row.wednesday
  else if day == dayThursday then row.thursday
  else if day == dayFriday then row.friday
  else none

/-! ### Roster Normalizer (`process_uploaded_file`, lines 10-44) -/

/-- Header phrases recognized by the regex
`"roll no|registration number|reg no|roll number"`. -/
def headerPhrases : List String := ["roll no", "registration number", "reg no", "roll number"]

/-- A raw spreadsheet row matches when some cell, lower-cased, contains one of
the header phrases (line 20). -/
def rowMatches (row : List String) : Bool :=
  row.any (fun cell => headerPhrases.any (fun p => subOf p.data (lowerAscii cell).data))

/-- First matching index of the scanned prefix (the `for i in range(...)` loop
with `break`, lines 18-22). -/
def scanHeader : List (List String) → Option Nat
  | [] => none
  | r :: rs =>
    if rowMatches r then some 0 else (scanHeader rs).map (fun i => i + 1)

/-- Header detection: scan at most the first 15 rows (line 18). -/
def findHeaderRow (rows : List (List String)) : Option Nat :=
  scanHeader (rows.take 15)

/-- Error values reported by `process_uploaded_file` before returning `None`. -/
inductive ProcError where
  | unsupportedFormat
  | headerNotFound
  | missingRollColumn (found : List String)
deriving DecidableEq

/-- The candidate identifier column names (line 33). -/
def roll_candidates : List String := ["roll no", "roll number", "registration number", "reg no"]

def rollNoStr : String := "roll no"

/-- Column names normalized to trimmed lower case (line 32). -/
def normCols (t : RawTable) : List String :=
  t.cols.map (fun c => lowerAscii (trimStr c))

/-- Column stage of `process_uploaded_file` (lines 32-41): normalize column
names, find the first identifier candidate, rename it to `"roll no"`, or fail
listing the discovered columns. -/
def column_stage (t : RawTable) : Except ProcError RawTable :=
  let cols := normCols t
  match cols.find? (fun c => roll_candidates.contains c) with
  | none => .error (.missingRollColumn cols)
  | some m => .ok ⟨cols.map (fun c => if c == m then rollNoStr else c), t.cells⟩

def csvExt : String := "csv"

def xlsExt : String := "xls"

def xlsxExt : String := "xlsx"

/-- Embedding of `process_uploaded_file` on the decoded grid of the file.
`ext` is the already lower-cased extension (line 12).  For CSV the first row
is the header; for spreadsheets the header row is searched within the first
15 rows, and failure to find it reports `headerNotFound` and yields no table
(lines 13-30); then the column stage runs (lines 32-41). -/
def process_uploaded_file (ext : String) (rawRows : List (List String)) :
    Except ProcError RawTable :=
  if ext == csvExt then
    column_stage ⟨rawRows.headD [], rawRows.drop 1⟩
  else if ext == xlsExt || ext == xlsxExt then
    match findHeaderRow rawRows with
    | none => .error .headerNotFound
    | some i => column_stage ⟨rawRows.getD i [], rawRows.drop (i + 1)⟩
  else .error .unsupportedFormat

/-! ### Batch Assigner (`form_batches_by_subject`, lines 47-57) -/

def divisionStr : String := "division"

def studentNameStr : String := "student name"

/-- The three columns selected on line 53, in source order. -/
def required_cols : List String := [divisionStr, rollNoStr, studentNameStr]

/-- Value of the cell under column `c` of a row (first matching column, as in
pandas column selection); empty when the column is absent. -/
def cellAt (t : RawTable) (c : String) (row : List String) : String :=
  match t.cols.findIdx? (fun x => x == c) with
  | some i => row.getD i (String.mk [])
  | none => String.mk []

/-- The typed roster extracted by `df[['division', 'roll no', 'student name']]`
(line 53), one `RosterRow` per data row. -/
def extractRoster (t : RawTable) : List RosterRow :=
  t.cells.map (fun row => ⟨cellAt t divisionStr row, cellAt t rollNoStr row, cellAt t studentNameStr row⟩)

/-- The batch column of line 55: row `i` (0-based) is labelled
`subject ++ str(i / batch_size + 1)`; rows keep their order and fields. -/
def assignBatches (subject : String) (rows : List RosterRow) (batchSize : Nat) :
    List BatchedRow :=
  ((List.range rows.length).zip rows).map (fun p =>
    ⟨p.2.division, p.2.rollNo, p.2.studentName, subject ++ decRepr (p.1 / batchSize + 1)⟩)

/-- Outcome of `form_batches_by_subject` for a single uploaded file:
`skipped` models `process_uploaded_file` returning `None` (diagnostic shown,
file skipped), `raised` models the uncaught `KeyError` of line 53 (carrying
the missing column names), `ok` is the per-subject batch table. -/
inductive FileResult (α : Type) where
  | skipped
  | raised (missing : List String)
  | ok (a : α)
deriving DecidableEq

/-- Body of the `for file in uploaded_files` loop of
`form_batches_by_subject` (lines 49-56) for one file with stem `stem`,
extension `ext` and decoded grid `rawRows`. -/
def form_batches_one (stem ext : String) (rawRows : List (List String)) (batchSize : Nat) :
    FileResult (List BatchedRow) :=
  match process_uploaded_file ext rawRows with
  | .error _ => .skipped
  | .ok df =>
    let missing := required_cols.filter (fun c => !(df.cols.contains c))
    if missing.isEmpty then
      .ok (assignBatches (upperAscii stem) (extractRoster df) batchSize)
    else .raised missing

/-- The whole `form_batches_by_subject` loop: later files are processed only
while no exception has been raised. -/
def form_batches_by_subject :
    List (String × String × List (List String)) → Nat →
      FileResult (List (String × List BatchedRow))
  | [], _ => .ok []
  | (stem, ext, rawRows) :: rest, batchSize =>
    match form_batches_one stem ext rawRows batchSize with
    | .raised m => .raised m
    | .skipped =>
      (form_batches_by_subject rest batchSize)
    | .ok t =>
      match form_batches_by_subject rest batchSize with
      | .raised m => .raised m
      | .skipped => .skipped
      | .ok ts => .ok ((upperAscii stem, t) :: ts)

/-! ### Conflict Detector (`detect_conflicts`, lines 60-92) -/

/-- Normalization applied on line 64 to the `Batch Number` column and on
line 74 to cell tokens after `strip`: remove spaces, upper-case. -/
def normalizeBatch (s : String) : String := upperAscii (removeSpaces s)

/-- The in-place `student_batches_df['Batch Number'] = ...` of line 64. -/
def normalizeTable (df : List BatchRow) : List BatchRow :=
  df.map (fun r => ⟨r.division, r.registrationNumber, r.studentName, normalizeBatch r.batchNumber⟩)

/-- The set of known batch codes (line 65); a deduplicated list stands for
`set(...unique())`. -/
def knownBatches (df : List BatchRow) : List String :=
  (df.map (fun r => r.batchNumber)).dedup

/-- Token normalization of line 74: `x.strip().replace(" ", "").upper()`. -/
def normalizeToken (x : String) : String := upperAscii (removeSpaces (trimStr x))

/-- The semicolon split of a cell (line 74). -/
def tokensOf (cell : String) : List String := splitOnStr semiChar cell

/-- Lines 74-75 on an explicit token list: keep tokens with non-empty strip,
normalize them, and keep only known batch codes. -/
def activeFromTokens (known : List String) (ts : List String) : List String :=
  ((ts.filter (fun x => !(strIsEmpty (trimStr x)))).map normalizeToken).filter
    (fun b => known.contains b)

/-- The rows of `filtered` belonging to one registration number (lines 78, 82-83). -/
def regRows (filtered : List BatchRow) (g : String) : List BatchRow :=
  filtered.filter (fun r => r.registrationNumber == g)

/-- The conflict record appended on lines 81-91 for registration number `g`:
`iloc[0]` is the first row of the student's filtered rows, and the
`Conflicting Batches` field joins all their batch codes with `", "`.
Yields `none` when the student has no filtered row (unreachable for the
registration numbers the caller selects). -/
def mkConflict (filtered : List BatchRow) (day timeSlot g : String) : Option Conflict :=
  match regRows filtered g with
  | [] => none
  | info :: rest =>
    some ⟨info.studentName, g, info.division, day, timeSlot,
      joinSep commaSep ((info :: rest).map (fun r => r.batchNumber))⟩

/-- Lines 78-79: the registration numbers occurring more than once among the
filtered rows (`value_counts` followed by `dupes > 1`). -/
def conflictRegs (filtered : List BatchRow) : List String :=
  ((filtered.map (fun r => r.registrationNumber)).dedup).filter
    (fun g => decide (1 < (regRows filtered g).length))

/-- Lines 77-91 for one cell, given the already-computed active batch list. -/
def conflictsFromActive (df : List BatchRow) (active : List String) (day timeSlot : String) :
    List Conflict :=
  let filtered := df.filter (fun r => active.contains r.batchNumber)
  (conflictRegs filtered).filterMap (mkConflict filtered day timeSlot)

/-- Lines 74-91 for one cell, given the cell's raw token list. -/
def conflictsFromTokens (df : List BatchRow) (known : List String)
    (day timeSlot : String) (ts : List String) : List Conflict :=
  conflictsFromActive df (activeFromTokens known ts) day timeSlot

/-- Lines 73-91 for one `(day, row)` pair of the timetable grid. -/
def cellConflicts (df : List BatchRow) (known : List String)
    (day timeSlot cell : String) : List Conflict :=
  conflictsFromTokens df known day timeSlot (tokensOf cell)

/-- Embedding of `detect_conflicts` (lines 60-92).  The first component is
the batch table after the in-place normalization of line 64 (the caller's
DataFrame is mutated); the second is the conflict list. -/
def detect_conflicts (df0 : List BatchRow) (tt : Timetable) :
    List BatchRow × List Conflict :=
  let df := normalizeTable df0
  let known := knownBatches df
  (df,
    days.flatMap (fun day =>
      if tt.presentDays.contains day then
        tt.rows.flatMap (fun row =>
          match row.classTime, getCell row day with
          | some t, some cell => cellConflicts df known day (trimStr t) cell
          | some _, none => []
          | none, _ => [])
      else []))

/-! ### Resolution Suggester -/

/-- A direct-mode timetable row: subject code, day, time range label. -/
structure TTEntry where
  subject : String
  day : String
  time : String
deriving DecidableEq

/-- A suggested alternative slot for the moved session. -/
structure Suggestion where
  suggestedNewDay : String
  suggestedNewTime : String
deriving DecidableEq

def noneStr : String := "None"

def noAltStr : String := "No alternative slot"

/-- Modelled from the spec: the Resolution Suggester of spec section 4.5 has
no implementation under `src/` (only `streamlit_app.py` is present, and it
stops at conflict detection).  Per the spec's words: for each conflict the
second listed session is the one to move; the timetable is searched for any
row with the same subject on a different day than the conflict's day; the
first such row's day and time are suggested, and if none exists the output is
exactly the pair `("None", "No alternative slot")`. -/
def suggest_resolution (timetable : List TTEntry) (subject day : String) : Suggestion :=
  match timetable.find? (fun e => e.subject == subject && !(e.day == day)) with
  | some e => ⟨e.day, e.time⟩
  | none => ⟨noneStr, noAltStr⟩

/-! ### Spec predicates and concrete instances used by witnesses -/

/-- The batch-partition property of `assignBatches` for one subject roster:
output length is the roster size; row `i` keeps its fields and gets batch code
`upper(stem) ++ str(i / B + 1)`; every batch code has at most `B` members;
batch code `k` is inhabited exactly for `1 ≤ k ≤ ceil(N / B)`; and every
output row belongs to exactly one batch code. -/
def BatchPartitionSpec (stem : String) (rows : List RosterRow) (B : Nat) : Prop :=
  (assignBatches (upperAscii stem) rows B).length = rows.length ∧
  (∀ i (h : i < rows.length), (assignBatches (upperAscii stem) rows B)[i]? =
      some ⟨rows[i].division, rows[i].rollNo, rows[i].studentName,
        upperAscii stem ++ decRepr (i / B + 1)⟩) ∧
  (∀ k, ((assignBatches (upperAscii stem) rows B).filter
      (fun r => r.batch == upperAscii stem ++ decRepr k)).length ≤ B) ∧
  (∀ k, (∃ r ∈ assignBatches (upperAscii stem) rows B,
      r.batch = upperAscii stem ++ decRepr k) ↔ 1 ≤ k ∧ k ≤ (rows.length + B - 1) / B) ∧
  (∀ r ∈ assignBatches (upperAscii stem) rows B,
      ∃! k, r.batch = upperAscii stem ++ decRepr k)

/-- Concrete roster used by the batch-partition witness. -/
def c1stem : String := "math"

def c1rows : List RosterRow :=
  [⟨"A", "R1", "S1"⟩, ⟨"A", "R2", "S2"⟩, ⟨"B", "R3", "S3"⟩]

/-- Concrete batch table used by the grid-cell witness: student R1 sits in
both M1 and M2. -/
def c2df : List BatchRow :=
  [⟨"A", "R1", "S1", "M1"⟩, ⟨"A", "R1", "S1", "M2"⟩, ⟨"B", "R2", "S2", "M1"⟩]

def c2known : List String := ["M1", "M2"]

def c2slot : String := "09:00-10:00"

def c2cell : String := "M1;M2"

def c2reg : String := "R1"

def c2conflict : Conflict := ⟨"S1", "R1", "A", dayMonday, c2slot, "M1, M2"⟩

/-- Concrete data for the single-cell provenance witness. -/
def c4df : List BatchRow :=
  [⟨"A", "R1", "S1", "A1"⟩, ⟨"A", "R1", "S1", "A2"⟩]

def c4time : String := "09:00"

def c4tt : Timetable :=
  ⟨[dayMonday], [⟨some c4time, some "A1;A2", none, none, none, none⟩]⟩

def c4conflict : Conflict := ⟨"S1", "R1", "A", dayMonday, "09:00", "A1, A2"⟩

/-- Concrete data for the unknown-token witness. -/
def c5df : List BatchRow :=
  [⟨"A", "R1", "S1", "B1"⟩, ⟨"A", "R1", "S1", "B2"⟩]

def c5known : List String := ["B1", "B2"]

def c5x : String := "ZZZ"

def c5cell1 : String := "B1"

def c5cell2 : String := "B2"

def c5slot : String := "10:00"

/-- Concrete spreadsheet grid for the header-detection witness: decoy text in
rows 0-3, true header at row index 4. -/
def c3rows : List (List String) :=
  [["PCCOE Akurdi"], ["Department of Computer Engineering"], ["Academic Year"],
   [""], ["Division", "Roll No", "Student Name"], ["A", "R1", "S1"]]

/-- Concrete raw table for the identifier-column witness. -/
def c6t : RawTable := ⟨["Division", " Roll No ", "Student Name"], [["A", "R1", "S1"]]⟩

/-- The normalized table `column_stage` produces for `c6t`. -/
def c6out : RawTable := ⟨["division", "roll no", "student name"], [["A", "R1", "S1"]]⟩

/-- Concrete tables for the mutation counterexample and amended witness. -/
def c7df : List BatchRow := [⟨"A", "R1", "S1", "a 1"⟩]

def c7tt : Timetable := ⟨[], []⟩

def c7dfok : List BatchRow := [⟨"A", "R1", "S1", "A1"⟩]

/-- Concrete timetable for the no-alternative witness. -/
def c8subj : String := "CS"

def c8tt : List TTEntry := [⟨"CS", dayMonday, "09:00"⟩]

/-- Concrete duplicate-row batch table for the double-counting witness. -/
def c9df : List BatchRow :=
  [⟨"A", "R1", "S1", "D1"⟩, ⟨"A", "R1", "S1", "D1"⟩]

def c9known : List String := ["D1"]

def c9slot : String := "11:00"

def c9cell : String := "D1"

def c9reg : String := "R1"

def c9b : String := "D1"

def c9conflict : Conflict := ⟨"S1", "R1", "A", dayMonday, "11:00", "D1, D1"⟩

/-- Concrete roster missing the division column, for the KeyError witness. -/
def c10stem : String := "phy"

def c10rows : List (List String) := [["Roll No", "Student Name"], ["R1", "S1"]]

def c10df : RawTable := ⟨["roll no", "student name"], [["R1", "S1"]]⟩

/-! ### Helper lemmas: the decimal printer -/

theorem toDecAux_eq_digits : ∀ fuel n, n ≤ fuel →
    toDecAux fuel n = ((Nat.digits 10 n).reverse).map digitChar := by
  intro fuel
  induction fuel with
  | zero =>
    intro n h
    have hn : n = 0 := Nat.le_zero.mp h
    subst hn
    simp [toDecAux]
  | succ f ih =>
    intro n h
    match n with
    | 0 => simp [toDecAux]
    | m + 1 =>
      have hdiv : (m + 1) / 10 ≤ f := by
        have h1 : (m + 1) / 10 < m + 1 := Nat.div_lt_self (Nat.succ_pos m) (by omega)
        omega
      rw [show toDecAux (f + 1) (m + 1)
            = toDecAux f ((m + 1) / 10) ++ [digitChar ((m + 1) % 10)] from rfl]
      rw [ih _ hdiv, Nat.digits_def' (by omega : (1 : Nat) < 10) (Nat.succ_pos m)]
      simp

theorem digitChar_inj_lt : ∀ a, a < 10 → ∀ b, b < 10 → digitChar a = digitChar b → a = b := by
  decide

theorem map_digitChar_inj : ∀ l₁ l₂ : List Nat, (∀ d ∈ l₁, d < 10) → (∀ d ∈ l₂, d < 10) →
    l₁.map digitChar = l₂.map digitChar → l₁ = l₂ := by
  intro l₁
  induction l₁ with
  | nil =>
    intro l₂ _ _ h
    cases l₂ with
    | nil => rfl
    | cons b u => simp at h
  | cons a t ih =>
    intro l₂ h1 h2 h
    cases l₂ with
    | nil => simp at h
    | cons b u =>
      simp only [List.map_cons, List.cons.injEq] at h
      have hab : a = b :=
        digitChar_inj_lt a (h1 a (by simp)) b (h2 b (by simp)) h.1
      have htu : t = u :=
        ih u (fun d hd => h1 d (by simp [hd])) (fun d hd => h2 d (by simp [hd])) h.2
      rw [hab, htu]

theorem decRepr_data (n : Nat) : (decRepr n).data =
    if n = 0 then [digitChar 0] else ((Nat.digits 10 n).reverse).map digitChar := by
  unfold decRepr
  by_cases h : n = 0
  · subst h
    simp
  · simp [h, toDecAux_eq_digits n n le_rfl]

theorem digits_rev_eq_zero_imp {n : Nat} (h0 : (Nat.digits 10 n).reverse = [0]) : n = 0 := by
  have hdig : Nat.digits 10 n = [0] := by simpa using congrArg List.reverse h0
  have h1 := Nat.ofDigits_digits 10 n
  rw [hdig] at h1
  simpa [Nat.ofDigits] using h1.symm

theorem decRepr_inj {m n : Nat} (h : decRepr m = decRepr n) : m = n := by
  have hdigits : ∀ k : Nat, ∀ d ∈ (Nat.digits 10 k).reverse, d < 10 := by
    intro k d hd
    exact Nat.digits_lt_base (by omega) (List.mem_reverse.mp hd)
  have hd := congrArg String.data h
  rw [decRepr_data, decRepr_data] at hd
  by_cases hm : m = 0 <;> by_cases hn : n = 0
  · omega
  · exfalso
    rw [if_pos hm, if_neg hn] at hd
    have h0 : ([0] : List Nat) = (Nat.digits 10 n).reverse := by
      apply map_digitChar_inj
      · intro d hd2
        simp at hd2
        omega
      · exact hdigits n
      · simpa using hd
    exact hn (digits_rev_eq_zero_imp h0.symm)
  · exfalso
    rw [if_neg hm, if_pos hn] at hd
    have h0 : (Nat.digits 10 m).reverse = ([0] : List Nat) := by
      apply map_digitChar_inj
      · exact hdigits m
      · intro d hd2
        simp at hd2
        omega
      · simpa using hd
    exact hm (digits_rev_eq_zero_imp h0)
  · rw [if_neg hm, if_neg hn] at hd
    have hrev : (Nat.digits 10 m).reverse = (Nat.digits 10 n).reverse :=
      map_digitChar_inj _ _ (hdigits m) (hdigits n) hd
    have hdig : Nat.digits 10 m = Nat.digits 10 n := by
      simpa using congrArg List.reverse hrev
    exact Nat.digits_inj_iff.mp hdig

theorem str_append_left_cancel {s t u : String} (h : s ++ t = s ++ u) : t = u := by
  have hd := congrArg String.data h
  simp only [String.data_append] at hd
  exact String.ext (List.append_cancel_left hd)

theorem batch_code_inj (s : String) {a b : Nat} (h : s ++ decRepr a = s ++ decRepr b) :
    a = b :=
  decRepr_inj (str_append_left_cancel h)

/-! ### Helper lemmas: batch-index arithmetic -/

theorem div_succ_le_ceil {B i N : Nat} (hB : 0 < B) (h : i < N) :
    i / B + 1 ≤ (N + B - 1) / B := by
  have h1 : i + B ≤ N + B - 1 := by omega
  have h2 : (i + B) / B ≤ (N + B - 1) / B := Nat.div_le_div_right h1
  rwa [Nat.add_div_right i hB] at h2

theorem exists_index_of_le_ceil {B k N : Nat} (hB : 0 < B) (hk1 : 1 ≤ k)
    (hk2 : k ≤ (N + B - 1) / B) : (k - 1) * B < N ∧ (k - 1) * B / B + 1 = k := by
  have hkB : k * B ≤ N + B - 1 := (Nat.le_div_iff_mul_le hB).mp hk2
  have hN : 0 < N := by
    by_contra h0
    have hN0 : N = 0 := by omega
    subst hN0
    have he : 0 + B - 1 = B - 1 := by omega
    rw [he] at hk2
    have : (B - 1) / B = 0 := Nat.div_eq_of_lt (by omega)
    omega
  have hsub : (k - 1) * B = k * B - B := Nat.sub_one_mul k B
  have hBle : B ≤ k * B := Nat.le_mul_of_pos_left B (by omega)
  refine ⟨by omega, ?_⟩
  rw [Nat.mul_div_cancel _ hB]
  omega

theorem countP_div_le {B N k : Nat} (hB : 0 < B) :
    List.countP (fun i => decide (i / B + 1 = k)) (List.range N) ≤ B := by
  rcases k with _ | j
  · have h0 : List.countP (fun i => decide (i / B + 1 = 0)) (List.range N) = 0 :=
      List.countP_eq_zero.mpr (by intro i _; simp)
    omega
  · rw [List.countP_eq_length_filter]
    have hnd : ((List.range N).filter (fun i => decide (i / B + 1 = j + 1))).Nodup :=
      List.Nodup.filter _ (List.nodup_range N)
    have hsub : ∀ i ∈ (List.range N).filter (fun i => decide (i / B + 1 = j + 1)),
        i ∈ Finset.Ico (j * B) (j * B + B) := by
      intro i hi
      rw [List.mem_filter] at hi
      obtain ⟨_, hip⟩ := hi
      have hij : i / B + 1 = j + 1 := by simpa using hip
      have hdiv : i / B = j := by omega
      have h1 : j * B ≤ i := by
        rw [← hdiv]
        exact Nat.div_mul_le_self i B
      have h2 : i < j * B + B := by
        have hlt : i / B < j + 1 := by omega
        have := (Nat.div_lt_iff_lt_mul hB).mp hlt
        calc i < (j + 1) * B := this
          _ = j * B + B := by ring
      exact Finset.mem_Ico.mpr ⟨h1, h2⟩
    have hcard : ((List.range N).filter (fun i => decide (i / B + 1 = j + 1))).length
        ≤ (Finset.Ico (j * B) (j * B + B)).card := by
      rw [← List.toFinset_card_of_nodup hnd]
      apply Finset.card_le_card
      intro x hx
      exact hsub x (List.mem_toFinset.mp hx)
    rw [Nat.card_Ico] at hcard
    omega

/-! ### Helper lemmas: `assignBatches` -/

theorem assignBatches_length (s : String) (rows : List RosterRow) (B : Nat) :
    (assignBatches s rows B).length = rows.length := by
  simp [assignBatches]

theorem assignBatches_getElem (s : String) (rows : List RosterRow) (B : Nat)
    (i : Nat) (h : i < rows.length) :
    (assignBatches s rows B)[i]? =
      some ⟨rows[i].division, rows[i].rollNo, rows[i].studentName,
        s ++ decRepr (i / B + 1)⟩ := by
  have hlen : i < (assignBatches s rows B).length := by
    rw [assignBatches_length]
    exact h
  rw [List.getElem?_eq_getElem hlen]
  simp only [assignBatches, List.getElem_map, List.getElem_zip, List.getElem_range]

theorem assignBatches_filter_count (s : String) (rows : List RosterRow) (B k : Nat) :
    ((assignBatches s rows B).filter
        (fun r => r.batch == s ++ decRepr k)).length
      = List.countP (fun i => decide (i / B + 1 = k)) (List.range rows.length) := by
  rw [← List.countP_eq_length_filter]
  unfold assignBatches
  rw [List.countP_map]
  have hfst : List.countP (fun i => decide (i / B + 1 = k)) (List.range rows.length)
      = List.countP (fun i => decide (i / B + 1 = k))
          (List.map Prod.fst ((List.range rows.length).zip rows)) := by
    rw [List.map_fst_zip _ _ (by simp)]
  rw [hfst, List.countP_map]
  apply List.countP_congr
  intro p _
  simp only [Function.comp_apply, beq_iff_eq, decide_eq_true_eq]
  constructor
  · intro hcode
    exact batch_code_inj s hcode
  · intro hk
    rw [hk]

theorem mem_assignBatches {s : String} {rows : List RosterRow} {B : Nat} {r : BatchedRow}
    (hr : r ∈ assignBatches s rows B) :
    ∃ i, ∃ h : i < rows.length,
      r = ⟨rows[i].division, rows[i].rollNo, rows[i].studentName,
        s ++ decRepr (i / B + 1)⟩ := by
  unfold assignBatches at hr
  rw [List.mem_map] at hr
  obtain ⟨p, hp, hfp⟩ := hr
  rw [List.mem_iff_getElem] at hp
  obtain ⟨i, hi, hzi⟩ := hp
  have hiN : i < rows.length := by
    simpa [List.length_zip, List.length_range] using hi
  refine ⟨i, hiN, ?_⟩
  have hp2 : p = (i, rows[i]) := by
    rw [← hzi]
    simp [List.getElem_zip]
  rw [← hfp, hp2]

/-- C1: for a positive batch size `B`, `form_batches_by_subject` labels row
`i` of a subject's roster with batch code `upper(stem) ++ str(i / B + 1)`,
preserving the original row order and fields, so the roster is partitioned
into `ceil(N / B)` batches numbered `1..ceil(N / B)`, each of size at most
`B`, with total membership `N`. -/
theorem batch_assignment_partition (stem : String) (rows : List RosterRow) (B : Nat)
    (hB : 0 < B) : BatchPartitionSpec stem rows B := by
  refine ⟨assignBatches_length _ _ _, ?_, ?_, ?_, ?_⟩
  · intro i h
    exact assignBatches_getElem _ rows B i h
  · intro k
    rw [assignBatches_filter_count]
    exact countP_div_le hB
  · intro k
    constructor
    · rintro ⟨r, hr, hcode⟩
      obtain ⟨i, hi, hre⟩ := mem_assignBatches hr
      have hb : r.batch = upperAscii stem ++ decRepr (i / B + 1) := by rw [hre]
      have hk : i / B + 1 = k := batch_code_inj _ (by rw [← hb, hcode])
      refine ⟨by rw [← hk]; exact Nat.le_add_left 1 _, ?_⟩
      rw [← hk]
      exact div_succ_le_ceil hB hi
    · rintro ⟨hk1, hk2⟩
      obtain ⟨hlt, heq⟩ := exists_index_of_le_ceil hB hk1 hk2
      refine ⟨⟨rows[(k - 1) * B].division, rows[(k - 1) * B].rollNo,
        rows[(k - 1) * B].studentName,
        upperAscii stem ++ decRepr ((k - 1) * B / B + 1)⟩, ?_, ?_⟩
      · exact List.getElem?_mem (assignBatches_getElem (upperAscii stem) rows B _ hlt)
      · simp only
        rw [heq]
  · intro r hr
    obtain ⟨i, hi, hre⟩ := mem_assignBatches hr
    refine ⟨i / B + 1, by rw [hre], ?_⟩
    intro k hk
    have hb : upperAscii stem ++ decRepr k = upperAscii stem ++ decRepr (i / B + 1) := by
      rw [← hk, hre]
    exact batch_code_inj _ hb

theorem batch_assignment_partition_witness :
    0 < 2 ∧ BatchPartitionSpec c1stem c1rows 2 :=
  ⟨by decide, batch_assignment_partition c1stem c1rows 2 (by decide)⟩

/-! ### Helper lemmas: the per-cell conflict computation -/

theorem mkConflict_some {filtered : List BatchRow} {day slot g : String} {c : Conflict}
    (h : mkConflict filtered day slot g = some c) :
    c.registrationNumber = g ∧ c.day = day ∧ c.timeSlot = slot ∧
    c.conflictingBatches =
      joinSep commaSep ((regRows filtered g).map (fun r => r.batchNumber)) := by
  unfold mkConflict at h
  cases hre : regRows filtered g with
  | nil =>
    rw [hre] at h
    simp at h
  | cons info rest =>
    rw [hre] at h
    simp only [Option.some.injEq] at h
    subst h
    exact ⟨rfl, rfl, rfl, rfl⟩

theorem mkConflict_eq_none_iff {filtered : List BatchRow} {day slot g : String} :
    mkConflict filtered day slot g = none ↔ regRows filtered g = [] := by
  unfold mkConflict
  cases hre : regRows filtered g with
  | nil => simp
  | cons info rest => simp

theorem filterMap_mkConflict_count (filtered : List BatchRow) (day slot X : String) :
    ∀ l : List String, l.Nodup →
      ((l.filterMap (mkConflict filtered day slot)).filter
          (fun c => c.registrationNumber == X)).length
        = if X ∈ l ∧ regRows filtered X ≠ [] then 1 else 0 := by
  intro l
  induction l with
  | nil =>
    intro _
    simp
  | cons g t ih =>
    intro hnd
    have hndt : t.Nodup := (List.nodup_cons.mp hnd).2
    have hgnot : g ∉ t := (List.nodup_cons.mp hnd).1
    rw [List.filterMap_cons]
    cases hmk : mkConflict filtered day slot g with
    | none =>
      have hemp : regRows filtered g = [] := mkConflict_eq_none_iff.mp hmk
      rw [ih hndt]
      by_cases hgX : X = g
      · subst hgX
        simp [hemp]
      · simp [List.mem_cons, hgX]
    | some c =>
      have hprops := mkConflict_some hmk
      have hne : regRows filtered g ≠ [] := by
        intro he
        rw [mkConflict_eq_none_iff.mpr he] at hmk
        exact Option.noConfusion hmk
      rw [List.filter_cons]
      by_cases hgX : g = X
      · subst hgX
        have hcreg : (c.registrationNumber == g) = true := by
          simp [hprops.1]
        rw [if_pos (by simpa using hcreg)]
        rw [List.length_cons, ih hndt]
        rw [if_neg (fun hc => hgnot hc.1), if_pos ⟨List.mem_cons_self g t, hne⟩]
      · have hcreg : (c.registrationNumber == X) = false := by
          simp [hprops.1]
          exact hgX
        rw [if_neg (by simp [hcreg])]
        rw [ih hndt]
        have hiff : (X ∈ t ∧ regRows filtered X ≠ [])
            ↔ (X ∈ g :: t ∧ regRows filtered X ≠ []) := by
          constructor
          · rintro ⟨hm, hp⟩
            exact ⟨List.mem_cons_of_mem _ hm, hp⟩
          · rintro ⟨hm, hp⟩
            rcases List.mem_cons.mp hm with h1 | h1
            · exact absurd h1.symm hgX
            · exact ⟨h1, hp⟩
        exact if_congr hiff rfl rfl

theorem conflictRegs_nodup (filtered : List BatchRow) : (conflictRegs filtered).Nodup :=
  List.Nodup.filter _ (List.nodup_dedup _)

theorem mem_conflictRegs {filtered : List BatchRow} {X : String} :
    X ∈ conflictRegs filtered ↔ 1 < (regRows filtered X).length := by
  unfold conflictRegs
  rw [List.mem_filter]
  constructor
  · rintro ⟨_, h2⟩
    simpa using h2
  · intro h
    refine ⟨?_, by simpa using h⟩
    rw [List.mem_dedup, List.mem_map]
    have hne : regRows filtered X ≠ [] := by
      intro he
      rw [he] at h
      simp at h
    obtain ⟨r, hr⟩ := List.exists_mem_of_ne_nil _ hne
    have hr2 := List.mem_filter.mp hr
    exact ⟨r, hr2.1, by simpa using hr2.2⟩

theorem conflictsFromActive_count (df : List BatchRow) (active : List String)
    (day slot X : String) :
    ((conflictsFromActive df active day slot).filter
        (fun c => c.registrationNumber == X)).length
      = if 1 < (regRows (df.filter (fun r => active.contains r.batchNumber)) X).length
        then 1 else 0 := by
  unfold conflictsFromActive
  rw [filterMap_mkConflict_count _ day slot X _ (conflictRegs_nodup _)]
  by_cases h : 1 < (regRows (df.filter (fun r => active.contains r.batchNumber)) X).length
  · have hne : regRows (df.filter (fun r => active.contains r.batchNumber)) X ≠ [] := by
      intro he
      rw [he] at h
      simp at h
    rw [if_pos ⟨mem_conflictRegs.mpr h, hne⟩, if_pos h]
  · rw [if_neg (fun hc => h (mem_conflictRegs.mp hc.1)), if_neg h]

theorem mem_conflictsFromActive {df : List BatchRow} {active : List String}
    {day slot : String} {c : Conflict}
    (hc : c ∈ conflictsFromActive df active day slot) :
    c.day = day ∧ c.timeSlot = slot ∧
    1 < (regRows (df.filter (fun r => active.contains r.batchNumber))
          c.registrationNumber).length ∧
    c.conflictingBatches = joinSep commaSep
      ((regRows (df.filter (fun r => active.contains r.batchNumber))
          c.registrationNumber).map (fun r => r.batchNumber)) := by
  unfold conflictsFromActive at hc
  rw [List.mem_filterMap] at hc
  obtain ⟨g, hg, hmk⟩ := hc
  have hprops := mkConflict_some hmk
  rw [hprops.1]
  exact ⟨hprops.2.1, hprops.2.2.1, mem_conflictRegs.mp hg, hprops.2.2.2⟩

theorem regRows_filter (df : List BatchRow) (p : BatchRow → Bool) (X : String) :
    regRows (df.filter p) X
      = df.filter (fun r => p r && r.registrationNumber == X) := by
  unfold regRows
  rw [List.filter_filter]
  apply List.filter_congr
  intro r _
  rw [Bool.and_comm]

/-- C2: in a timetable cell, `detect_conflicts` reports a conflict for a
student exactly when the student's registration number occurs in more than
one batch-table row whose batch code is active in that cell; it reports
exactly one conflict row per such student per cell, and the `Conflicting
Batches` field joins all of that student's active batch codes with `", "`. -/
theorem grid_cell_conflict_spec (df : List BatchRow) (known : List String)
    (day slot cell X : String) :
    (((cellConflicts df known day slot cell).filter
        (fun c => c.registrationNumber == X)).length
      = if 1 < (df.filter (fun r =>
            (activeFromTokens known (tokensOf cell)).contains r.batchNumber
              && r.registrationNumber == X)).length then 1 else 0)
    ∧ ∀ c ∈ cellConflicts df known day slot cell,
        c.day = day ∧ c.timeSlot = slot ∧
        c.conflictingBatches = joinSep commaSep
          ((df.filter (fun r =>
              (activeFromTokens known (tokensOf cell)).contains r.batchNumber
                && r.registrationNumber == c.registrationNumber)).map
            (fun r => r.batchNumber)) := by
  constructor
  · have h := conflictsFromActive_count df (activeFromTokens known (tokensOf cell)) day slot X
    rw [regRows_filter] at h
    exact h
  · intro c hc
    have hc2 : c ∈ conflictsFromActive df (activeFromTokens known (tokensOf cell)) day slot := hc
    have h := mem_conflictsFromActive hc2
    rw [regRows_filter] at h
    exact ⟨h.1, h.2.1, h.2.2.2⟩

theorem grid_cell_conflict_spec_witness :
    (((cellConflicts c2df c2known dayMonday c2slot c2cell).filter
        (fun c => c.registrationNumber == c2reg)).length
      = if 1 < (c2df.filter (fun r =>
            (activeFromTokens c2known (tokensOf c2cell)).contains r.batchNumber
              && r.registrationNumber == c2reg)).length then 1 else 0)
    ∧ (c2conflict.day = dayMonday ∧ c2conflict.timeSlot = c2slot ∧
        c2conflict.conflictingBatches = joinSep commaSep
          ((c2df.filter (fun r =>
              (activeFromTokens c2known (tokensOf c2cell)).contains r.batchNumber
                && r.registrationNumber == c2conflict.registrationNumber)).map
            (fun r => r.batchNumber))) :=
  ⟨(grid_cell_conflict_spec c2df c2known dayMonday c2slot c2cell c2reg).1,
   (grid_cell_conflict_spec c2df c2known dayMonday c2slot c2cell c2reg).2
     c2conflict (by decide)⟩

/-- C4: every conflict reported by `detect_conflicts` arises from the active
batches of one single `(day, time slot)` cell of the timetable; sessions on
different days are never combined. -/
theorem conflicts_single_cell (df : List BatchRow) (tt : Timetable) (c : Conflict)
    (hc : c ∈ (detect_conflicts df tt).2) :
    ∃ day, day ∈ days ∧ tt.presentDays.contains day = true ∧
      ∃ row ∈ tt.rows, ∃ t cell, row.classTime = some t ∧ getCell row day = some cell ∧
        c ∈ cellConflicts (normalizeTable df) (knownBatches (normalizeTable df))
            day (trimStr t) cell ∧
        c.day = day ∧ c.timeSlot = trimStr t := by
  have hc2 : c ∈ days.flatMap (fun day =>
      if tt.presentDays.contains day then
        tt.rows.flatMap (fun row =>
          match row.classTime, getCell row day with
          | some t, some cell =>
            cellConflicts (normalizeTable df) (knownBatches (normalizeTable df))
              day (trimStr t) cell
          | some _, none => []
          | none, _ => [])
      else []) := hc
  rw [List.mem_flatMap] at hc2
  obtain ⟨day, hday, hc3⟩ := hc2
  by_cases hpres : tt.presentDays.contains day = true
  · rw [if_pos hpres] at hc3
    rw [List.mem_flatMap] at hc3
    obtain ⟨row, hrow, hc4⟩ := hc3
    cases hct : row.classTime with
    | none =>
      rw [hct] at hc4
      simp at hc4
    | some t =>
      cases hcell : getCell row day with
      | none =>
        rw [hct, hcell] at hc4
        simp at hc4
      | some cell =>
        rw [hct, hcell] at hc4
        have hmem : c ∈ cellConflicts (normalizeTable df) (knownBatches (normalizeTable df))
            day (trimStr t) cell := hc4
        have hprops := mem_conflictsFromActive
          (show c ∈ conflictsFromActive (normalizeTable df)
              (activeFromTokens (knownBatches (normalizeTable df)) (tokensOf cell))
              day (trimStr t) from hmem)
        exact ⟨day, hday, hpres, row, hrow, t, cell, hct, hcell, hmem,
          hprops.1, hprops.2.1⟩
  · rw [if_neg hpres] at hc3
    simp at hc3

theorem conflicts_single_cell_witness :
    ∃ day, day ∈ days ∧ c4tt.presentDays.contains day = true ∧
      ∃ row ∈ c4tt.rows, ∃ t cell, row.classTime = some t ∧
        getCell row day = some cell ∧
        c4conflict ∈ cellConflicts (normalizeTable c4df) (knownBatches (normalizeTable c4df))
            day (trimStr t) cell ∧
        c4conflict.day = day ∧ c4conflict.timeSlot = trimStr t :=
  conflicts_single_cell c4df c4tt c4conflict (by decide)

/-! ### Helper lemmas: the cell tokenizer -/

theorem splitOnCharList_cons_eq (sep c : Char) (rest g : List Char)
    (gs : List (List Char)) (hs : splitOnCharList sep rest = g :: gs) :
    splitOnCharList sep (c :: rest)
      = if c == sep then [] :: g :: gs else (c :: g) :: gs := by
  unfold splitOnCharList
  rw [hs]

theorem splitOnCharList_ne_nil (sep : Char) (l : List Char) :
    splitOnCharList sep l ≠ [] := by
  induction l with
  | nil => simp [splitOnCharList]
  | cons c t ih =>
    cases hs : splitOnCharList sep t with
    | nil => exact absurd hs ih
    | cons g gs =>
      rw [splitOnCharList_cons_eq sep c t g gs hs]
      by_cases h : (c == sep) = true
      · rw [if_pos h]
        simp
      · rw [if_neg h]
        simp

theorem splitOnCharList_append_sep (sep : Char) (l₁ l₂ : List Char) :
    splitOnCharList sep (l₁ ++ sep :: l₂)
      = splitOnCharList sep l₁ ++ splitOnCharList sep l₂ := by
  induction l₁ with
  | nil =>
    rw [List.nil_append]
    cases hs : splitOnCharList sep l₂ with
    | nil => exact absurd hs (splitOnCharList_ne_nil sep l₂)
    | cons g gs =>
      rw [splitOnCharList_cons_eq sep sep l₂ g gs hs]
      rw [if_pos (by simp)]
      rw [show splitOnCharList sep [] = [[]] from rfl]
      rfl
  | cons c t ih =>
    rw [List.cons_append]
    cases hs2 : splitOnCharList sep (t ++ sep :: l₂) with
    | nil => exact absurd hs2 (splitOnCharList_ne_nil sep _)
    | cons G Gs =>
      cases hs : splitOnCharList sep t with
      | nil => exact absurd hs (splitOnCharList_ne_nil sep t)
      | cons g gs =>
        have h3 : G :: Gs = g :: (gs ++ splitOnCharList sep l₂) := by
          rw [← hs2, ih, hs]
          rfl
        have hs3 : splitOnCharList sep (t ++ sep :: l₂)
            = g :: (gs ++ splitOnCharList sep l₂) := hs2.trans h3
        rw [splitOnCharList_cons_eq sep c _ g (gs ++ splitOnCharList sep l₂) hs3]
        rw [splitOnCharList_cons_eq sep c t g gs hs]
        by_cases h : (c == sep) = true
        · rw [if_pos h, if_pos h]
          rfl
        · rw [if_neg h, if_neg h]
          rfl

theorem splitOnCharList_no_sep (sep : Char) (l : List Char)
    (h : l.contains sep = false) : splitOnCharList sep l = [l] := by
  induction l with
  | nil => simp [splitOnCharList]
  | cons c t ih =>
    rw [List.contains_cons] at h
    have hc : (sep == c) = false := by
      cases hcs : sep == c
      · rfl
      · rw [hcs] at h
        simp at h
    have ht : t.contains sep = false := by
      cases hts : t.contains sep
      · rfl
      · rw [hts] at h
        simp at h
    rw [splitOnCharList_cons_eq sep c t t [] (ih ht)]
    have hc2 : (c == sep) = false :=
      beq_eq_false_iff_ne.mpr (fun he => absurd he.symm (beq_eq_false_iff_ne.mp hc))
    rw [if_neg (by simp [hc2])]

theorem activeFromTokens_append (known : List String) (ts1 ts2 : List String) :
    activeFromTokens known (ts1 ++ ts2)
      = activeFromTokens known ts1 ++ activeFromTokens known ts2 := by
  unfold activeFromTokens
  rw [List.filter_append, List.map_append, List.filter_append]

theorem activeFromTokens_drop_unknown (known : List String) (x : String)
    (hx : known.contains (normalizeToken x) = false) :
    activeFromTokens known [x] = [] := by
  unfold activeFromTokens
  cases h : strIsEmpty (trimStr x) with
  | true =>
    have hfil : List.filter (fun y => !strIsEmpty (trimStr y)) [x] = [] := by
      simp [List.filter_cons, h]
    rw [hfil]
    rfl
  | false =>
    have hfil : List.filter (fun y => !strIsEmpty (trimStr y)) [x] = [x] := by
      simp [List.filter_cons, h]
    rw [hfil, List.map_cons, List.map_nil, List.filter_cons]
    rw [hx]
    simp

/-- C5: a semicolon-delimited timetable-cell token is normalized by stripping
and upper-casing, and is silently dropped when the normalized token is not a
known batch code: inserting such a token into a cell does not change the
cell's conflicts (and the computation never fails, being total).  Stated both
at the raw-cell level and at the token-list level. -/
theorem unknown_tokens_dropped (df : List BatchRow) (known : List String)
    (day slot : String) (cell1 cell2 x : String)
    (hsep : x.data.contains semiChar = false)
    (hx : known.contains (normalizeToken x) = false) :
    cellConflicts df known day slot
        (String.mk (cell1.data ++ semiChar :: (x.data ++ semiChar :: cell2.data)))
      = cellConflicts df known day slot (String.mk (cell1.data ++ semiChar :: cell2.data))
    ∧ conflictsFromTokens df known day slot (tokensOf cell1 ++ x :: tokensOf cell2)
      = conflictsFromTokens df known day slot (tokensOf cell1 ++ tokensOf cell2) := by
  have hactive : ∀ ts1 ts2 : List String,
      activeFromTokens known (ts1 ++ x :: ts2) = activeFromTokens known (ts1 ++ ts2) := by
    intro ts1 ts2
    have h1 : ts1 ++ x :: ts2 = ts1 ++ [x] ++ ts2 := by simp
    rw [h1, activeFromTokens_append, activeFromTokens_append,
      activeFromTokens_append, activeFromTokens_drop_unknown known x hx,
      List.append_nil]
  constructor
  · unfold cellConflicts conflictsFromTokens
    have htok : tokensOf (String.mk (cell1.data ++ semiChar :: (x.data ++ semiChar :: cell2.data)))
        = tokensOf cell1 ++ x :: tokensOf cell2 := by
      unfold tokensOf splitOnStr
      rw [show (String.mk (cell1.data ++ semiChar :: (x.data ++ semiChar :: cell2.data))).data
          = cell1.data ++ semiChar :: (x.data ++ semiChar :: cell2.data) from rfl]
      rw [splitOnCharList_append_sep, splitOnCharList_append_sep,
        splitOnCharList_no_sep semiChar x.data hsep]
      simp
    have htok2 : tokensOf (String.mk (cell1.data ++ semiChar :: cell2.data))
        = tokensOf cell1 ++ tokensOf cell2 := by
      unfold tokensOf splitOnStr
      rw [show (String.mk (cell1.data ++ semiChar :: cell2.data)).data
          = cell1.data ++ semiChar :: cell2.data from rfl]
      rw [splitOnCharList_append_sep]
      simp
    rw [htok, htok2]
    unfold conflictsFromActive
    rw [hactive]
  · unfold conflictsFromTokens
    unfold conflictsFromActive
    rw [hactive]

theorem unknown_tokens_dropped_witness :
    cellConflicts c5df c5known dayMonday c5slot
        (String.mk (c5cell1.data ++ semiChar :: (c5x.data ++ semiChar :: c5cell2.data)))
      = cellConflicts c5df c5known dayMonday c5slot
          (String.mk (c5cell1.data ++ semiChar :: c5cell2.data))
    ∧ conflictsFromTokens c5df c5known dayMonday c5slot
          (tokensOf c5cell1 ++ c5x :: tokensOf c5cell2)
      = conflictsFromTokens c5df c5known dayMonday c5slot
          (tokensOf c5cell1 ++ tokensOf c5cell2) :=
  unknown_tokens_dropped c5df c5known dayMonday c5slot c5cell1 c5cell2 c5x
    (by decide) (by decide)

/-! ### Helper lemmas: header scanning -/

theorem scanHeader_some : ∀ (l : List (List String)) i, scanHeader l = some i →
    i < l.length ∧ (∃ r, l[i]? = some r ∧ rowMatches r = true) ∧
    (∀ j, j < i → ∀ r, l[j]? = some r → rowMatches r = false) := by
  intro l
  induction l with
  | nil =>
    intro i h
    simp [scanHeader] at h
  | cons r rs ih =>
    intro i h
    unfold scanHeader at h
    by_cases hm : rowMatches r = true
    · rw [if_pos hm] at h
      injection h with h0
      subst h0
      refine ⟨by simp, ⟨r, by simp, hm⟩, ?_⟩
      intro j hj
      exact absurd hj (Nat.not_lt_zero j)
    · rw [if_neg hm] at h
      cases hsc : scanHeader rs with
      | none =>
        rw [hsc] at h
        simp at h
      | some q =>
        rw [hsc] at h
        simp only [Option.map_some', Option.some.injEq] at h
        subst h
        obtain ⟨hlen, ⟨r0, hr0, hm0⟩, hprev⟩ := ih q hsc
        refine ⟨by simp only [List.length_cons]; omega,
          ⟨r0, by simpa [List.getElem?_cons_succ] using hr0, hm0⟩, ?_⟩
        intro j hj rj hrj
        cases j with
        | zero =>
          rw [List.getElem?_cons_zero] at hrj
          injection hrj with hrj2
          rw [← hrj2]
          cases hb : rowMatches r
          · rfl
          · exact absurd hb hm
        | succ q2 =>
          rw [List.getElem?_cons_succ] at hrj
          exact hprev q2 (by omega) rj hrj

theorem scanHeader_none : ∀ (l : List (List String)), scanHeader l = none →
    ∀ i, i < l.length → ∀ r, l[i]? = some r → rowMatches r = false := by
  intro l
  induction l with
  | nil =>
    intro _ i hi
    simp at hi
  | cons r rs ih =>
    intro h i hi rj hrj
    unfold scanHeader at h
    by_cases hm : rowMatches r = true
    · rw [if_pos hm] at h
      exact absurd h (by simp)
    · rw [if_neg hm] at h
      cases hsc : scanHeader rs with
      | none =>
        cases i with
        | zero =>
          rw [List.getElem?_cons_zero] at hrj
          injection hrj with hrj2
          rw [← hrj2]
          cases hb : rowMatches r
          · rfl
          · exact absurd hb hm
        | succ q =>
          rw [List.getElem?_cons_succ] at hrj
          exact ih hsc q (by simp at hi; omega) rj hrj
      | some q =>
        rw [hsc] at h
        simp at h

/-- C3: on a spreadsheet, `process_uploaded_file` scans at most the first 15
rows and picks as header the smallest row index one of whose cells,
lower-cased, contains one of the recognized roll-number phrases; decoy rows
before the true header are skipped, and when no row of the scan window
matches, the function reports the header-not-found diagnostic and returns no
table. -/
theorem header_detection_spec (rows : List (List String)) :
    (∀ i, findHeaderRow rows = some i →
      i < 15 ∧ i < rows.length ∧
      (∃ r, rows[i]? = some r ∧ rowMatches r = true) ∧
      (∀ j, j < i → ∀ r, rows[j]? = some r → rowMatches r = false))
    ∧ (findHeaderRow rows = none →
      (∀ i, i < 15 → i < rows.length → ∀ r, rows[i]? = some r → rowMatches r = false)
        ∧ process_uploaded_file xlsxExt rows = .error .headerNotFound) := by
  constructor
  · intro i h
    obtain ⟨hlen, ⟨r0, hr0, hm0⟩, hprev⟩ := scanHeader_some (rows.take 15) i h
    rw [List.length_take] at hlen
    have hi15 : i < 15 := lt_of_lt_of_le hlen (min_le_left _ _)
    have hiN : i < rows.length := lt_of_lt_of_le hlen (min_le_right _ _)
    have htake : ∀ j, j < 15 → (rows.take 15)[j]? = rows[j]? := by
      intro j hj
      rw [List.getElem?_take]
      rw [if_pos hj]
    refine ⟨hi15, hiN, ⟨r0, ?_, hm0⟩, ?_⟩
    · rw [← htake i hi15]
      exact hr0
    · intro j hj r hr
      exact hprev j hj r (by rw [htake j (by omega)]; exact hr)
  · intro h
    constructor
    · intro i hi15 hiN r hr
      have hlen : i < (rows.take 15).length := by
        rw [List.length_take]
        omega
      refine scanHeader_none (rows.take 15) h i hlen r ?_
      rw [List.getElem?_take, if_pos hi15]
      exact hr
    · unfold process_uploaded_file
      rw [if_neg (by decide), if_pos (by decide)]
      rw [h]

theorem header_detection_spec_witness :
    4 < 15 ∧ 4 < c3rows.length ∧
      (∃ r, c3rows[4]? = some r ∧ rowMatches r = true) ∧
      (∀ j, j < 4 → ∀ r, c3rows[j]? = some r → rowMatches r = false) :=
  (header_detection_spec c3rows).1 4 (by decide)

theorem column_stage_eq (t : RawTable) :
    column_stage t
      = match (normCols t).find? (fun c => roll_candidates.contains c) with
        | none => .error (.missingRollColumn (normCols t))
        | some m =>
          .ok ⟨(normCols t).map (fun c => if c == m then rollNoStr else c), t.cells⟩ := rfl

/-- C6: after normalizing column names to trimmed lower case, the column
stage succeeds exactly when some column matches the identifier-name set; the
first matching column is renamed to the canonical `"roll no"`, other columns
and the cells are unchanged; with zero matches it fails with the
missing-identifier diagnostic listing the discovered (normalized) columns. -/
theorem roll_column_stage_spec (t : RawTable) :
    ((∃ u, column_stage t = .ok u) ↔ ∃ c ∈ normCols t, c ∈ roll_candidates)
    ∧ (∀ e, column_stage t = .error e → e = .missingRollColumn (normCols t)
        ∧ ∀ c ∈ normCols t, c ∉ roll_candidates)
    ∧ (∀ u, column_stage t = .ok u → u.cells = t.cells ∧ rollNoStr ∈ u.cols ∧
        ∃ m ∈ roll_candidates,
          (normCols t).find? (fun c => roll_candidates.contains c) = some m ∧
          u.cols = (normCols t).map (fun c => if c == m then rollNoStr else c)) := by
  cases hf : (normCols t).find? (fun c => roll_candidates.contains c) with
  | none =>
    have hred : column_stage t = .error (.missingRollColumn (normCols t)) := by
      rw [column_stage_eq, hf]
    have hno : ∀ c ∈ normCols t, c ∉ roll_candidates := by
      intro c hc hcand
      have hnone := List.find?_eq_none.mp hf c hc
      have hcon : roll_candidates.contains c = true := by
        rw [List.elem_iff]
        exact hcand
      exact hnone hcon
    refine ⟨?_, ?_, ?_⟩
    · constructor
      · rintro ⟨u, hu⟩
        rw [hred] at hu
        exact absurd hu (by simp)
      · rintro ⟨c, hc, hcand⟩
        exact absurd hcand (hno c hc)
    · intro e he
      rw [hred] at he
      simp only [Except.error.injEq] at he
      exact ⟨he.symm, hno⟩
    · intro u hu
      rw [hred] at hu
      exact absurd hu (by simp)
  | some m =>
    have hred : column_stage t
        = .ok ⟨(normCols t).map (fun c => if c == m then rollNoStr else c), t.cells⟩ := by
      rw [column_stage_eq, hf]
    have hm : m ∈ roll_candidates := by
      have := List.find?_some hf
      rwa [List.elem_iff] at this
    have hmem : m ∈ normCols t := List.mem_of_find?_eq_some hf
    refine ⟨?_, ?_, ?_⟩
    · constructor
      · intro _
        exact ⟨m, hmem, hm⟩
      · intro _
        exact ⟨_, hred⟩
    · intro e he
      rw [hred] at he
      exact absurd he (by simp)
    · intro u hu
      rw [hred] at hu
      simp only [Except.ok.injEq] at hu
      subst hu
      refine ⟨rfl, ?_, m, hm, rfl, rfl⟩
      rw [List.mem_map]
      exact ⟨m, hmem, by simp⟩

theorem roll_column_stage_spec_witness :
    c6out.cells = c6t.cells ∧ rollNoStr ∈ c6out.cols ∧
      ∃ m ∈ roll_candidates,
        (normCols c6t).find? (fun c => roll_candidates.contains c) = some m ∧
        c6out.cols = (normCols c6t).map (fun c => if c == m then rollNoStr else c) :=
  (roll_column_stage_spec c6t).2.2 c6out (by rfl)

/-- C7 counterexample: `detect_conflicts` is not pure in its batch-table
argument.  Line 64 assigns the normalized `Batch Number` column back into the
caller's DataFrame, so a table holding the batch number `"a 1"` comes back
changed (to `"A1"`). -/
theorem detect_conflicts_mutates_input : (detect_conflicts c7df c7tt).1 ≠ c7df := by
  decide

/-- C7 (amended): `detect_conflicts` mutates its input batch table exactly by
normalizing the `Batch Number` column in place (spaces removed, upper-cased);
every other field is untouched, and on a table whose batch numbers are
already normalized — as at the app's call site, which pre-normalizes on line
129 — the input is unchanged. -/
theorem detect_conflicts_mutation_spec (df : List BatchRow) (tt : Timetable) :
    (detect_conflicts df tt).1 = normalizeTable df
    ∧ ((detect_conflicts df tt).1).map
        (fun r => (r.division, r.registrationNumber, r.studentName))
      = df.map (fun r => (r.division, r.registrationNumber, r.studentName))
    ∧ ((∀ r ∈ df, normalizeBatch r.batchNumber = r.batchNumber) →
        (detect_conflicts df tt).1 = df) := by
  refine ⟨rfl, ?_, ?_⟩
  · show (normalizeTable df).map _ = df.map _
    unfold normalizeTable
    rw [List.map_map]
    rfl
  · intro h
    show normalizeTable df = df
    unfold normalizeTable
    have hid : ∀ r ∈ df,
        (⟨r.division, r.registrationNumber, r.studentName,
          normalizeBatch r.batchNumber⟩ : BatchRow) = id r := by
      intro r hr
      rw [h r hr]
      rfl
    rw [List.map_congr_left hid, List.map_id]

theorem detect_conflicts_mutation_spec_witness :
    (detect_conflicts c7dfok c7tt).1 = normalizeTable c7dfok
    ∧ ((detect_conflicts c7dfok c7tt).1).map
        (fun r => (r.division, r.registrationNumber, r.studentName))
      = c7dfok.map (fun r => (r.division, r.registrationNumber, r.studentName))
    ∧ (detect_conflicts c7dfok c7tt).1 = c7dfok :=
  ⟨(detect_conflicts_mutation_spec c7dfok c7tt).1,
   (detect_conflicts_mutation_spec c7dfok c7tt).2.1,
   (detect_conflicts_mutation_spec c7dfok c7tt).2.2 (by decide)⟩

/-- C8 (spec-modelled): when the moved subject has no timetable slot on any
day other than the conflict's day, the Resolution Suggester outputs exactly
`("None", "No alternative slot")`. -/
theorem no_alternative_marker (timetable : List TTEntry) (subject day : String)
    (h : ∀ e ∈ timetable, e.subject = subject → e.day = day) :
    suggest_resolution timetable subject day = ⟨noneStr, noAltStr⟩ := by
  have hf : timetable.find? (fun e => e.subject == subject && !(e.day == day)) = none := by
    rw [List.find?_eq_none]
    intro e he habs
    simp only [Bool.and_eq_true, Bool.not_eq_true'] at habs
    have h1 : e.subject = subject := by simpa using habs.1
    have h2 : e.day = day := h e he h1
    rw [h2] at habs
    simp at habs
  unfold suggest_resolution
  rw [hf]

theorem no_alternative_marker_witness :
    suggest_resolution c8tt c8subj dayMonday = ⟨noneStr, noAltStr⟩ :=
  no_alternative_marker c8tt c8subj dayMonday (by decide)

/-! ### Helper lemmas: counting filtered rows -/

theorem filter_length_mono {α : Type} (l : List α) (p q : α → Bool)
    (h : ∀ a ∈ l, p a = true → q a = true) :
    (l.filter p).length ≤ (l.filter q).length := by
  induction l with
  | nil => simp
  | cons a t ih =>
    have iht := ih (fun x hx => h x (List.mem_cons_of_mem a hx))
    rw [List.filter_cons, List.filter_cons]
    by_cases hp : p a = true
    · rw [if_pos hp, if_pos (h a (List.mem_cons_self a t) hp)]
      simpa using iht
    · rw [if_neg hp]
      by_cases hq : q a = true
      · rw [if_pos hq]
        calc (List.filter p t).length ≤ (List.filter q t).length := iht
          _ ≤ (a :: List.filter q t).length := by simp
      · rw [if_neg hq]
        exact iht

theorem count_map_batchNumber (l : List BatchRow) (b : String) :
    (l.map (fun r => r.batchNumber)).count b
      = (l.filter (fun r => r.batchNumber == b)).length := by
  rw [List.count_eq_countP, List.countP_map, List.countP_eq_length_filter]
  rfl

/-- C9: duplicate batch-table rows are counted as distinct obligations: when
a student has at least two rows with the same batch code `b` and `b` is
active in a cell, the student is reported for that cell (exactly one row)
and the `Conflicting Batches` listing contains the identical code `b` at
least twice. -/
theorem duplicate_rows_double_counted (df : List BatchRow) (known : List String)
    (day slot cell X b : String)
    (hb : (activeFromTokens known (tokensOf cell)).contains b = true)
    (h2 : 2 ≤ (df.filter
        (fun r => r.registrationNumber == X && r.batchNumber == b)).length) :
    (((cellConflicts df known day slot cell).filter
        (fun c => c.registrationNumber == X)).length = 1)
    ∧ ∀ c ∈ cellConflicts df known day slot cell, c.registrationNumber = X →
        ∃ l, c.conflictingBatches = joinSep commaSep l ∧ 2 ≤ l.count b := by
  have hmono : (df.filter
        (fun r => r.registrationNumber == X && r.batchNumber == b)).length
      ≤ (regRows (df.filter
          (fun r => (activeFromTokens known (tokensOf cell)).contains r.batchNumber))
          X).length := by
    rw [regRows_filter]
    apply filter_length_mono
    intro r _ hp
    simp only [Bool.and_eq_true] at hp ⊢
    obtain ⟨hreg, hbatch⟩ := hp
    refine ⟨?_, hreg⟩
    have hrb : r.batchNumber = b := by simpa using hbatch
    rw [hrb]
    exact hb
  have hgt : 1 < (regRows (df.filter
      (fun r => (activeFromTokens known (tokensOf cell)).contains r.batchNumber))
      X).length := by omega
  constructor
  · have hcount := conflictsFromActive_count df
      (activeFromTokens known (tokensOf cell)) day slot X
    rw [if_pos hgt] at hcount
    exact hcount
  · intro c hc hcX
    have hprops := mem_conflictsFromActive
      (show c ∈ conflictsFromActive df (activeFromTokens known (tokensOf cell)) day slot
        from hc)
    refine ⟨(regRows (df.filter
        (fun r => (activeFromTokens known (tokensOf cell)).contains r.batchNumber))
        c.registrationNumber).map (fun r => r.batchNumber), hprops.2.2.2, ?_⟩
    rw [hcX, count_map_batchNumber]
    have hmono2 : (df.filter
          (fun r => r.registrationNumber == X && r.batchNumber == b)).length
        ≤ ((regRows (df.filter
            (fun r => (activeFromTokens known (tokensOf cell)).contains r.batchNumber))
            X).filter (fun r => r.batchNumber == b)).length := by
      rw [regRows_filter, List.filter_filter]
      apply filter_length_mono
      intro r _ hp
      simp only [Bool.and_eq_true] at hp ⊢
      obtain ⟨hreg, hbatch⟩ := hp
      have hrb : r.batchNumber = b := by simpa using hbatch
      exact ⟨hbatch, ⟨by rw [hrb]; exact hb, hreg⟩⟩
    omega

theorem duplicate_rows_double_counted_witness :
    (((cellConflicts c9df c9known dayMonday c9slot c9cell).filter
        (fun c => c.registrationNumber == c9reg)).length = 1)
    ∧ ∃ l, c9conflict.conflictingBatches = joinSep commaSep l ∧ 2 ≤ l.count c9b :=
  ⟨(duplicate_rows_double_counted c9df c9known dayMonday c9slot c9cell c9reg c9b
      (by decide) (by decide)).1,
   (duplicate_rows_double_counted c9df c9known dayMonday c9slot c9cell c9reg c9b
      (by decide) (by decide)).2 c9conflict (by decide) (by decide)⟩

/-- C10: `form_batches_by_subject` validates only the identifier column.
Once a roster passes `process_uploaded_file`, line 53 unconditionally selects
the columns division, roll no and student name: if division or student name
is absent the loop body raises an uncaught `KeyError` (it neither reports a
diagnostic nor skips the file), while with all three columns present it
returns the batch table and never raises. -/
theorem roster_missing_columns_raise (stem ext : String) (rawRows : List (List String))
    (B : Nat) (df : RawTable) (hproc : process_uploaded_file ext rawRows = .ok df) :
    ((∃ c ∈ required_cols, df.cols.contains c = false) →
      ∃ missing, form_batches_one stem ext rawRows B = .raised missing ∧ missing ≠ [])
    ∧ ((∀ c ∈ required_cols, df.cols.contains c = true) →
      form_batches_one stem ext rawRows B
        = .ok (assignBatches (upperAscii stem) (extractRoster df) B)) := by
  constructor
  · rintro ⟨c, hc, hnc⟩
    have hmem : c ∈ required_cols.filter (fun c => !(df.cols.contains c)) := by
      rw [List.mem_filter]
      refine ⟨hc, ?_⟩
      rw [hnc]
      rfl
    have hne : required_cols.filter (fun c => !(df.cols.contains c)) ≠ [] := by
      intro he
      rw [he] at hmem
      simp at hmem
    have hemp : (required_cols.filter (fun c => !(df.cols.contains c))).isEmpty = false := by
      cases hh : (required_cols.filter (fun c => !(df.cols.contains c))).isEmpty
      · rfl
      · exact absurd (List.isEmpty_iff.mp hh) hne
    refine ⟨required_cols.filter (fun c => !(df.cols.contains c)), ?_, hne⟩
    unfold form_batches_one
    rw [hproc]
    show (if (required_cols.filter (fun c => !(df.cols.contains c))).isEmpty = true
        then FileResult.ok (assignBatches (upperAscii stem) (extractRoster df) B)
        else FileResult.raised (required_cols.filter (fun c => !(df.cols.contains c))))
      = FileResult.raised (required_cols.filter (fun c => !(df.cols.contains c)))
    rw [if_neg (by rw [hemp]; exact Bool.false_ne_true)]
  · intro hall
    have hemp : required_cols.filter (fun c => !(df.cols.contains c)) = [] := by
      rw [List.filter_eq_nil_iff]
      intro c hc
      rw [hall c hc]
      simp
    unfold form_batches_one
    rw [hproc]
    show (if (required_cols.filter (fun c => !(df.cols.contains c))).isEmpty = true
        then FileResult.ok (assignBatches (upperAscii stem) (extractRoster df) B)
        else FileResult.raised (required_cols.filter (fun c => !(df.cols.contains c))))
      = FileResult.ok (assignBatches (upperAscii stem) (extractRoster df) B)
    rw [hemp]
    rfl

theorem roster_missing_columns_raise_witness :
    ∃ missing, form_batches_one c10stem csvExt c10rows 20 = .raised missing
      ∧ missing ≠ [] :=
  (roster_missing_columns_raise c10stem csvExt c10rows 20 c10df (by rfl)).1 (by decide)
